import Mathlib

/-!
Shallow embedding of `src/amidakuji_generator/core.py` (functions
`generate_amidakuji_data` and `_simulate_amidakuji`) and proofs about it.

Modelling conventions:
* Python `int` inputs are `Int`; quantities that are provably nonnegative in
  the source (rows, column indices, counts) are `Nat`.
* The Python float `margin_ratio` is embedded as an exact rational, passed as an
  integer pair `margin_num / margin_den` with `margin_den > 0` (the default `0.1`
  is `1 / 10`; for that value and the grid heights produced here,
  `int(height * margin_ratio)` computed in binary floating point agrees with the
  exact rational floor).
* `random.randint(min, max)` is modelled by an explicit parameter `total_bars`
  constrained by hypotheses `min ≤ total_bars ≤ max`, and each `random.shuffle`
  by an explicit reordering function constrained to return a permutation of its
  argument.
* `raise ValueError` is modelled by `Except.error`; the two distinct failure
  modes of the source (parameter validation and the final connectivity check)
  are the two constructors of `GenError`.
* Python's stable `sorted(key=...)` is modelled by `List.mergeSort`, which is
  also stable, hence produces the identical list.
-/

namespace Amidakuji

/-- One horizontal bar: `{"y_level": ..., "left_line_index": ...}`. -/
structure Bar where
  y_level : Nat
  left_line_index : Nat
deriving DecidableEq, Repr

/-- The dictionary returned by `generate_amidakuji_data`. -/
structure AmidakujiData where
  vertical_lines : Nat
  horizontal_bars_total : Nat
  horizontal_bars : List Bar
deriving DecidableEq, Repr

/-- The two failure modes of `generate_amidakuji_data` (both `ValueError` in
Python): parameter validation, and the final connectivity check whose message
embeds `missing_lines` (1-based, as computed by `[i + 1 for i, ...]`). -/
inductive GenError where
  | invalidParameter (msg : String)
  | connectivityError (missing_lines : List Nat)
deriving DecidableEq, Repr

/-- Height of the placement grid: `total_bars * 2 if total_bars > 0 else 6`
(line 54 of `core.py`). -/
def gridHeight (total_bars : Nat) : Nat :=
  if total_bars > 0 then total_bars * 2 else 6

/-- Margin rows excluded at top and bottom:
`max(1, int(height * margin_ratio))` (line 58 of `core.py`), for the ratio
`margin_num / margin_den`.  The validated ratio is nonnegative, so Python's
truncation `int(...)` is the rational floor, which for a nonnegative numerator
is Nat division. -/
def marginLevels (height : Nat) (margin_num : Int) (margin_den : Nat) : Nat :=
  max 1 (height * margin_num.toNat / margin_den)

/-- The cells enumerated by
`for y in range(margin_levels, height - margin_levels): for col in range(num_columns)`
(lines 69-71 and 105-106 of `core.py`). -/
def cellRange (margin_levels height num_columns : Nat) : List (Nat × Nat) :=
  (List.range' margin_levels (height - margin_levels - margin_levels)).flatMap
    fun y => (List.range num_columns).map fun col => (y, col)

/-- The conflict test repeated at lines 88-92 and 117-120 of `core.py`:
`(y, col) not in selected_positions and (y, col - 1) not in selected_positions
and (y, col + 1) not in selected_positions`.  Columns are `Int` inside the
selected-set exactly because Python evaluates `col - 1` as `-1` when `col = 0`
(and `(y, -1)` is never a member). -/
def noConflict (selected_positions : List (Nat × Int)) (y : Nat) (col : Int) : Bool :=
  decide ((y, col) ∉ selected_positions) &&
  decide ((y, col - 1) ∉ selected_positions) &&
  decide ((y, col + 1) ∉ selected_positions)

/-- The mutable locals of the generation loops. -/
structure GenState where
  horizontal_bars : List Bar
  selected_positions : List (Nat × Int)
  line_covered : List Bool
deriving Repr

/-- First placement pass (lines 79-100 of `core.py`): walk the shuffled
coverage candidates, placing a bar whenever it would newly cover an uncovered
line and does not conflict with an already selected cell; stop when the bar
budget is reached or when every line is covered. -/
def coveragePass (total_bars vertical_lines : Nat) :
    List (Nat × Nat) → GenState → GenState
  | [], s => s
  | (y, col) :: rest, s =>
    if s.horizontal_bars.length ≥ total_bars then s
    else
      let left_covered := s.line_covered.getD col false
      let right_covered :=
        if col + 1 < vertical_lines then s.line_covered.getD (col + 1) false else true
      if (!left_covered || !right_covered) && noConflict s.selected_positions y (col : Int) then
        let s' : GenState :=
          { horizontal_bars := s.horizontal_bars ++ [⟨y, col⟩]
            selected_positions := (y, (col : Int)) :: s.selected_positions
            line_covered := (s.line_covered.set col true).set (col + 1) true }
        if s'.line_covered.all (fun b => b) then s'
        else coveragePass total_bars vertical_lines rest s'
      else coveragePass total_bars vertical_lines rest s

/-- Second placement pass (lines 112-123 of `core.py`): walk the shuffled
remaining candidates, placing any non-conflicting bar until the budget is
reached. -/
def fillPass (total_bars : Nat) : List (Nat × Nat) → GenState → GenState
  | [], s => s
  | (y, col) :: rest, s =>
    if s.horizontal_bars.length ≥ total_bars then s
    else if noConflict s.selected_positions y (col : Int) then
      fillPass total_bars rest
        { s with
          horizontal_bars := s.horizontal_bars ++ [⟨y, col⟩]
          selected_positions := (y, (col : Int)) :: s.selected_positions }
    else fillPass total_bars rest s

/-- Lines 50-123 of `core.py` after validation: both placement passes.
`shuffle1` and `shuffle2` stand for the two `random.shuffle` calls. -/
def runPlacement (vertical_lines total_bars : Nat) (margin_num : Int) (margin_den : Nat)
    (shuffle1 shuffle2 : List (Nat × Nat) → List (Nat × Nat)) : GenState :=
  let height := gridHeight total_bars
  let num_columns := vertical_lines - 1
  let margin_levels := marginLevels height margin_num margin_den
  let s0 : GenState := ⟨[], [], List.replicate vertical_lines false⟩
  let s1 :=
    if total_bars ≥ num_columns then
      coveragePass total_bars vertical_lines
        (shuffle1 (cellRange margin_levels height num_columns)) s0
    else s0
  if s1.horizontal_bars.length < total_bars then
    fillPass total_bars
      (shuffle2 ((cellRange margin_levels height num_columns).filter
        fun p => decide (((p.1, (p.2 : Int)) : Nat × Int) ∉ s1.selected_positions)))
      s1
  else s1

/-- `line_has_bar` of lines 126-131 of `core.py`. -/
def linesTouched (vertical_lines : Nat) (bars : List Bar) : List Bool :=
  bars.foldl
    (fun acc bar =>
      let acc1 := acc.set bar.left_line_index true
      if bar.left_line_index + 1 < vertical_lines then
        acc1.set (bar.left_line_index + 1) true
      else acc1)
    (List.replicate vertical_lines false)

/-- `generate_amidakuji_data` (lines 9-142 of `core.py`).  The randomness is
passed explicitly: `total_bars` for `random.randint(min_horizontal_bars,
max_horizontal_bars)` and `shuffle1`/`shuffle2` for the two `random.shuffle`
calls. -/
def generate_amidakuji_data (vertical_lines min_horizontal_bars max_horizontal_bars : Int)
    (margin_num : Int) (margin_den : Nat) (total_bars : Nat)
    (shuffle1 shuffle2 : List (Nat × Nat) → List (Nat × Nat)) :
    Except GenError AmidakujiData :=
  if vertical_lines < 2 then
    .error (.invalidParameter "Number of vertical lines must be 2 or greater")
  else if min_horizontal_bars < 0 then
    .error (.invalidParameter "Minimum number of horizontal bars must be 0 or greater")
  else if max_horizontal_bars < 0 then
    .error (.invalidParameter "Maximum number of horizontal bars must be 0 or greater")
  else if min_horizontal_bars > max_horizontal_bars then
    .error (.invalidParameter "Minimum must be less than or equal to maximum")
  else if margin_num < 0 ∨ (margin_den : Int) ≤ 2 * margin_num then
    .error (.invalidParameter "Margin ratio must be between 0 and 0.5")
  else
    let n := vertical_lines.toNat
    let s := runPlacement n total_bars margin_num margin_den shuffle1 shuffle2
    let line_has_bar := linesTouched n s.horizontal_bars
    if line_has_bar.all (fun b => b) then
      .ok ⟨n, s.horizontal_bars.length, s.horizontal_bars⟩
    else
      .error (.connectivityError
        (((List.range n).filter fun i => !(line_has_bar.getD i false)).map fun i => i + 1))

/-- The adjacent swap of `_simulate_amidakuji` (lines 253-260 of `core.py`):
`if left_index < len(positions) - 1: positions[l], positions[l+1] = positions[l+1], positions[l]`. -/
def swapAdj (positions : List Nat) (left_index : Nat) : List Nat :=
  if left_index < positions.length - 1 then
    (positions.set left_index (positions.getD (left_index + 1) 0)).set
      (left_index + 1) (positions.getD left_index 0)
  else positions

/-- `_simulate_amidakuji` (lines 233-262 of `core.py`).  Python's stable
`sorted(..., key=lambda x: x["y_level"])` is `mergeSort`, which is stable. -/
def _simulate_amidakuji (amidakuji_data : AmidakujiData) : List Nat :=
  let sorted_bars :=
    amidakuji_data.horizontal_bars.mergeSort fun a b => decide (a.y_level ≤ b.y_level)
  sorted_bars.foldl (fun positions bar => swapAdj positions bar.left_line_index)
    (List.range amidakuji_data.vertical_lines)

/-! ### Generic instances and small helpers -/

instance decEqExcept {ε α : Type} [DecidableEq ε] [DecidableEq α] :
    DecidableEq (Except ε α) := fun
  | .ok a, .ok b =>
    if h : a = b then .isTrue (by rw [h]) else .isFalse (by intro hc; cases hc; exact h rfl)
  | .ok _, .error _ => .isFalse (by intro h; cases h)
  | .error _, .ok _ => .isFalse (by intro h; cases h)
  | .error a, .error b =>
    if h : a = b then .isTrue (by rw [h]) else .isFalse (by intro hc; cases hc; exact h rfl)

/-- Two bars neither coincide nor touch: if they share a row, their left
columns are at least 2 apart (so equal or adjacent columns are excluded). -/
def barsApart (b1 b2 : Bar) : Prop :=
  b1.y_level = b2.y_level →
    b1.left_line_index + 2 ≤ b2.left_line_index ∨
    b2.left_line_index + 2 ≤ b1.left_line_index

instance (b1 b2 : Bar) : Decidable (barsApart b1 b2) := by
  unfold barsApart; infer_instance

/-- The selected-position set is exactly the set of placed bar positions. -/
def selConsistent (s : GenState) : Prop :=
  ∀ (y : Nat) (c : Int), (y, c) ∈ s.selected_positions ↔
    ∃ b ∈ s.horizontal_bars, b.y_level = y ∧ (b.left_line_index : Int) = c

/-- Loop invariant of both placement passes. -/
def placeInv (s : GenState) : Prop :=
  selConsistent s ∧ s.horizontal_bars.Pairwise barsApart

/-- A deterministic stand-in for the first `random.shuffle` in the C3
counterexample run: a permutation of every input (it reorders exactly one
concrete list and leaves every other list unchanged). -/
def shuffleC3a (l : List (Nat × Nat)) : List (Nat × Nat) :=
  if l = cellRange 4 12 3 then
    [(4, 1), (5, 0), (5, 2), (4, 0), (4, 2), (5, 1),
     (6, 0), (6, 1), (6, 2), (7, 0), (7, 1), (7, 2)]
  else l

/-- The remaining candidate cells after the coverage pass of the C3
counterexample run. -/
def remainingC3 : List (Nat × Nat) :=
  [(4, 0), (4, 2), (5, 1), (6, 0), (6, 1), (6, 2), (7, 0), (7, 1), (7, 2)]

/-- A deterministic stand-in for the second `random.shuffle` in the C3
counterexample run. -/
def shuffleC3b (l : List (Nat × Nat)) : List (Nat × Nat) :=
  if l = remainingC3 then
    [(6, 1), (7, 1), (4, 0), (4, 2), (5, 1), (6, 0), (6, 2), (7, 0), (7, 2)]
  else l

/-- A vertical line `i` is touched by some bar: it is the left or the right
end of a placed bar. -/
def touchesLine (bars : List Bar) (i : Nat) : Prop :=
  ∃ b ∈ bars, i = b.left_line_index ∨ i = b.left_line_index + 1

instance (bars : List Bar) (i : Nat) : Decidable (touchesLine bars i) := by
  unfold touchesLine; infer_instance


/-! ### C7: parameter validation -/

/-- C7: `generate_amidakuji_data` fails with a parameter-validation error
(`ValueError` raised before any generation work, modelled as
`GenError.invalidParameter`) whenever `vertical_lines < 2`, a negative bar
bound, `min > max`, or a margin ratio outside `[0, 1/2)` is supplied; no
diagram is returned for such inputs, whatever the random data. -/
theorem generate_invalid_parameter
    (vertical_lines min_horizontal_bars max_horizontal_bars margin_num : Int)
    (margin_den : Nat) (total_bars : Nat)
    (shuffle1 shuffle2 : List (Nat × Nat) → List (Nat × Nat))
    (h : vertical_lines < 2 ∨ min_horizontal_bars < 0 ∨ max_horizontal_bars < 0 ∨
      min_horizontal_bars > max_horizontal_bars ∨
      margin_num < 0 ∨ (margin_den : Int) ≤ 2 * margin_num) :
    ∃ msg, generate_amidakuji_data vertical_lines min_horizontal_bars max_horizontal_bars
      margin_num margin_den total_bars shuffle1 shuffle2 =
      .error (.invalidParameter msg) := by
  unfold generate_amidakuji_data
  split_ifs with h1 h2 h3 h4 h5
  · exact ⟨_, rfl⟩
  · exact ⟨_, rfl⟩
  · exact ⟨_, rfl⟩
  · exact ⟨_, rfl⟩
  · exact ⟨_, rfl⟩
  · exfalso
    rcases h with h | h | h | h | h | h
    · exact h1 h
    · exact h2 h
    · exact h3 h
    · exact h4 h
    · exact h5 (Or.inl h)
    · exact h5 (Or.inr h)

/-- Witness for C7 at the spec's example `generate(1, 0, 5)`. -/
theorem generate_invalid_parameter_witness :
    ∃ msg, generate_amidakuji_data 1 0 5 1 10 0 id id =
      .error (.invalidParameter msg) :=
  generate_invalid_parameter 1 0 5 1 10 0 id id (Or.inl (by decide))

/-! ### C1: `generate(3, 0, 0)` -/

/-- C1 (code bug evidence): with `lineCount = 3`, `minRungs = maxRungs = 0`
(so the drawn total is necessarily `0`) and the default margin ratio `1/10`,
the code does NOT succeed: no bar is placed, the final coverage check finds
every line uncovered, and a `ValueError` (connectivity failure naming all
three lines, 1-based) is raised — whatever the shuffle functions, which are
never consulted.  The repository's own test `test_zero_horizontal_bars`
expects this call to return a diagram with zero bars instead, and `simulate`
of that zero-bar diagram is indeed the identity `[0, 1, 2]`. -/
theorem generate_three_zero_zero_raises
    (shuffle1 shuffle2 : List (Nat × Nat) → List (Nat × Nat)) :
    generate_amidakuji_data 3 0 0 1 10 0 shuffle1 shuffle2 =
      .error (.connectivityError [1, 2, 3]) ∧
    _simulate_amidakuji ⟨3, 0, []⟩ = [0, 1, 2] := by
  constructor
  · rfl
  · simp [_simulate_amidakuji]
    rfl

/-! ### C9: `generate(2, 1, 1)` always fails -/

/-- C9: with `lineCount = 2`, `minRungs = maxRungs = 1` and the default margin
ratio `1/10`, generation always raises: the drawn total is necessarily `1`,
the grid height is `2` with a one-row margin at top and bottom, so no cell is
placeable, no bar is placed, and the final coverage check fails naming both
lines — for every pair of shuffle functions (i.e. regardless of the random
choices). -/
theorem generate_two_one_one_always_fails (total_bars : Nat)
    (shuffle1 shuffle2 : List (Nat × Nat) → List (Nat × Nat))
    (hlo : 1 ≤ total_bars) (hhi : total_bars ≤ 1)
    (hs1 : ∀ l, (shuffle1 l).Perm l) (hs2 : ∀ l, (shuffle2 l).Perm l) :
    generate_amidakuji_data 2 1 1 1 10 total_bars shuffle1 shuffle2 =
      .error (.connectivityError [1, 2]) := by
  have ht : total_bars = 1 := Nat.le_antisymm hhi hlo
  subst ht
  have e1 : shuffle1 [] = [] := List.Perm.eq_nil (hs1 [])
  have e2 : shuffle2 [] = [] := List.Perm.eq_nil (hs2 [])
  unfold generate_amidakuji_data runPlacement
  norm_num [marginLevels, gridHeight, cellRange]
  rw [e1, e2]
  decide

/-- Witness for C9: the identity shuffles realize the hypotheses. -/
theorem generate_two_one_one_always_fails_witness :
    generate_amidakuji_data 2 1 1 1 10 1 id id =
      .error (.connectivityError [1, 2]) :=
  generate_two_one_one_always_fails 1 id id (by decide) (by decide)
    (fun l => List.Perm.refl l) (fun l => List.Perm.refl l)

/-! ### Placement-pass invariants -/

lemma placeInv_insert (s : GenState) (y col : Nat) (lc : List Bool)
    (hc : noConflict s.selected_positions y (col : Int) = true)
    (hinv : placeInv s) :
    placeInv ⟨s.horizontal_bars ++ [⟨y, col⟩],
      (y, (col : Int)) :: s.selected_positions, lc⟩ := by
  simp only [noConflict, Bool.and_eq_true, decide_eq_true_eq] at hc
  obtain ⟨⟨hc0, hc1⟩, hc2⟩ := hc
  constructor
  · intro y' c'
    simp only [List.mem_cons]
    constructor
    · rintro (heq | hmem)
      · injection heq with h1 h2
        exact ⟨⟨y, col⟩, List.mem_append_right _ (List.mem_singleton_self _),
          h1.symm, h2.symm⟩
      · obtain ⟨b, hb, hby, hbc⟩ := (hinv.1 y' c').mp hmem
        exact ⟨b, List.mem_append_left _ hb, hby, hbc⟩
    · rintro ⟨b, hb, hby, hbc⟩
      rcases List.mem_append.mp hb with hb | hb
      · exact Or.inr ((hinv.1 y' c').mpr ⟨b, hb, hby, hbc⟩)
      · rcases List.mem_singleton.mp hb with rfl
        left
        simp only at hby hbc
        rw [← hby, ← hbc]
  · rw [List.pairwise_append]
    refine ⟨hinv.2, List.pairwise_singleton _ _, ?_⟩
    intro b hb b' hb'
    rcases List.mem_singleton.mp hb' with rfl
    unfold barsApart
    dsimp only
    intro hy
    by_contra hap
    push_neg at hap
    have hmem : ∀ c' : Int, (b.left_line_index : Int) = c' →
        (y, c') ∈ s.selected_positions := by
      intro c' hcl
      exact (hinv.1 y c').mpr ⟨b, hb, hy, hcl⟩
    have : (b.left_line_index : Int) = col ∨
        (b.left_line_index : Int) = (col : Int) - 1 ∨
        (b.left_line_index : Int) = (col : Int) + 1 := by omega
    rcases this with h | h | h
    · exact hc0 (hmem _ h)
    · exact hc1 (hmem _ h)
    · exact hc2 (hmem _ h)

lemma coveragePass_bars_origin (t n : Nat) :
    ∀ (l : List (Nat × Nat)) (s : GenState) (b : Bar),
      b ∈ (coveragePass t n l s).horizontal_bars →
      b ∈ s.horizontal_bars ∨ (b.y_level, b.left_line_index) ∈ l := by
  intro l
  induction l with
  | nil => intro s b h; exact Or.inl h
  | cons p rest ih =>
    obtain ⟨y, col⟩ := p
    intro s b h
    simp only [coveragePass] at h
    split at h
    · exact Or.inl h
    · split at h <;>
        (split at h
         · split at h
           · rcases List.mem_append.mp h with h' | h'
             · exact Or.inl h'
             · right
               rcases List.mem_singleton.mp h' with rfl
               exact List.mem_cons_self _ _
           · rcases ih _ b h with h' | h'
             · rcases List.mem_append.mp h' with h'' | h''
               · exact Or.inl h''
               · right
                 rcases List.mem_singleton.mp h'' with rfl
                 exact List.mem_cons_self _ _
             · exact Or.inr (List.mem_cons_of_mem _ h')
         · rcases ih _ b h with h' | h'
           · exact Or.inl h'
           · exact Or.inr (List.mem_cons_of_mem _ h'))

lemma fillPass_bars_origin (t : Nat) :
    ∀ (l : List (Nat × Nat)) (s : GenState) (b : Bar),
      b ∈ (fillPass t l s).horizontal_bars →
      b ∈ s.horizontal_bars ∨ (b.y_level, b.left_line_index) ∈ l := by
  intro l
  induction l with
  | nil => intro s b h; exact Or.inl h
  | cons p rest ih =>
    obtain ⟨y, col⟩ := p
    intro s b h
    simp only [fillPass] at h
    split at h
    · exact Or.inl h
    · split at h
      · rcases ih _ b h with h' | h'
        · rcases List.mem_append.mp h' with h'' | h''
          · exact Or.inl h''
          · right
            rcases List.mem_singleton.mp h'' with rfl
            exact List.mem_cons_self _ _
        · exact Or.inr (List.mem_cons_of_mem _ h')
      · rcases ih _ b h with h' | h'
        · exact Or.inl h'
        · exact Or.inr (List.mem_cons_of_mem _ h')

lemma coveragePass_length_le (t n : Nat) :
    ∀ (l : List (Nat × Nat)) (s : GenState),
      (coveragePass t n l s).horizontal_bars.length ≤
        max s.horizontal_bars.length t := by
  intro l
  induction l with
  | nil => intro s; exact Nat.le_max_left _ _
  | cons p rest ih =>
    obtain ⟨y, col⟩ := p
    intro s
    simp only [coveragePass]
    split
    · exact Nat.le_max_left _ _
    · rename_i hlen
      split <;>
        (split
         · split
           · simp only [List.length_append, List.length_singleton]
             omega
           · refine le_trans (ih _) ?_
             simp only [List.length_append, List.length_singleton]
             omega
         · exact ih _)

lemma fillPass_length_le (t : Nat) :
    ∀ (l : List (Nat × Nat)) (s : GenState),
      (fillPass t l s).horizontal_bars.length ≤
        max s.horizontal_bars.length t := by
  intro l
  induction l with
  | nil => intro s; exact Nat.le_max_left _ _
  | cons p rest ih =>
    obtain ⟨y, col⟩ := p
    intro s
    simp only [fillPass]
    split
    · exact Nat.le_max_left _ _
    · rename_i hlen
      split
      · refine le_trans (ih _) ?_
        simp only [List.length_append, List.length_singleton]
        omega
      · exact ih _

lemma coveragePass_placeInv (t n : Nat) :
    ∀ (l : List (Nat × Nat)) (s : GenState),
      placeInv s → placeInv (coveragePass t n l s) := by
  intro l
  induction l with
  | nil => intro s h; exact h
  | cons p rest ih =>
    obtain ⟨y, col⟩ := p
    intro s hinv
    simp only [coveragePass]
    split
    · exact hinv
    · split <;>
        (split
         · rename_i hcond
           have hnc : noConflict s.selected_positions y (col : Int) = true := by
             simp only [Bool.and_eq_true] at hcond
             exact hcond.2
           split
           · exact placeInv_insert s y col _ hnc hinv
           · exact ih _ (placeInv_insert s y col _ hnc hinv)
         · exact ih _ hinv)

lemma fillPass_placeInv (t : Nat) :
    ∀ (l : List (Nat × Nat)) (s : GenState),
      placeInv s → placeInv (fillPass t l s) := by
  intro l
  induction l with
  | nil => intro s h; exact h
  | cons p rest ih =>
    obtain ⟨y, col⟩ := p
    intro s hinv
    simp only [fillPass]
    split
    · exact hinv
    · split
      · rename_i hnc
        exact ih _ (placeInv_insert s y col _ hnc hinv)
      · exact ih _ hinv

lemma placeInv_start (n : Nat) :
    placeInv ⟨[], [], List.replicate n false⟩ := by
  constructor
  · intro y c
    simp
  · exact List.Pairwise.nil

lemma runPlacement_placeInv (n t : Nat) (mn : Int) (md : Nat)
    (shuffle1 shuffle2 : List (Nat × Nat) → List (Nat × Nat)) :
    placeInv (runPlacement n t mn md shuffle1 shuffle2) := by
  simp only [runPlacement]
  split <;> split <;>
    first
      | exact fillPass_placeInv _ _ _
          (coveragePass_placeInv _ _ _ _ (placeInv_start n))
      | exact coveragePass_placeInv _ _ _ _ (placeInv_start n)
      | exact fillPass_placeInv _ _ _ (placeInv_start n)
      | exact placeInv_start n

lemma runPlacement_length (n t : Nat) (mn : Int) (md : Nat)
    (shuffle1 shuffle2 : List (Nat × Nat) → List (Nat × Nat)) :
    (runPlacement n t mn md shuffle1 shuffle2).horizontal_bars.length ≤ t := by
  simp only [runPlacement]
  split <;> split
  · refine le_trans (fillPass_length_le _ _ _) ?_
    have h1 := coveragePass_length_le t n
      (shuffle1 (cellRange (marginLevels (gridHeight t) mn md) (gridHeight t) (n - 1)))
      ⟨[], [], List.replicate n false⟩
    simp only [List.length_nil] at h1
    omega
  · refine le_trans (coveragePass_length_le _ _ _ _) ?_
    simp only [List.length_nil]
    omega
  · refine le_trans (fillPass_length_le _ _ _) ?_
    simp only [List.length_nil]
    omega
  · simp

lemma mem_cellRange (m h c y col : Nat) :
    (y, col) ∈ cellRange m h c ↔ m ≤ y ∧ y < h - m ∧ col < c := by
  constructor
  · intro hmem
    simp only [cellRange, List.mem_flatMap, List.mem_map] at hmem
    obtain ⟨a, ha, col', hcol', heq⟩ := hmem
    injection heq with h1 h2
    subst h1
    subst h2
    rw [List.mem_range'_1] at ha
    rw [List.mem_range] at hcol'
    omega
  · rintro ⟨h1, h2, h3⟩
    simp only [cellRange, List.mem_flatMap, List.mem_map]
    exact ⟨y, by rw [List.mem_range'_1]; omega, col, by rw [List.mem_range]; omega, rfl⟩

lemma runPlacement_bars_origin (n t : Nat) (mn : Int) (md : Nat)
    (shuffle1 shuffle2 : List (Nat × Nat) → List (Nat × Nat))
    (hs1 : ∀ l, (shuffle1 l).Perm l) (hs2 : ∀ l, (shuffle2 l).Perm l) :
    ∀ b ∈ (runPlacement n t mn md shuffle1 shuffle2).horizontal_bars,
      (b.y_level, b.left_line_index) ∈
        cellRange (marginLevels (gridHeight t) mn md) (gridHeight t) (n - 1) := by
  intro b hb
  simp only [runPlacement] at hb
  split at hb <;> split at hb
  · rcases fillPass_bars_origin _ _ _ _ hb with h' | h'
    · rcases coveragePass_bars_origin _ _ _ _ _ h' with h'' | h''
      · simp at h''
      · exact ((hs1 _).mem_iff).mp h''
    · exact List.mem_of_mem_filter (((hs2 _).mem_iff).mp h')
  · rcases coveragePass_bars_origin _ _ _ _ _ hb with h' | h'
    · simp at h'
    · exact ((hs1 _).mem_iff).mp h'
  · rcases fillPass_bars_origin _ _ _ _ hb with h' | h'
    · simp at h'
    · exact List.mem_of_mem_filter (((hs2 _).mem_iff).mp h')
  · simp at hb

/-! ### Relating `generate_amidakuji_data` outcomes to the placement state -/

lemma generate_ok_state
    (vertical_lines min_horizontal_bars max_horizontal_bars margin_num : Int)
    (margin_den total_bars : Nat)
    (shuffle1 shuffle2 : List (Nat × Nat) → List (Nat × Nat)) (data : AmidakujiData)
    (hok : generate_amidakuji_data vertical_lines min_horizontal_bars max_horizontal_bars
      margin_num margin_den total_bars shuffle1 shuffle2 = .ok data) :
    data.vertical_lines = vertical_lines.toNat ∧
    data.horizontal_bars =
      (runPlacement vertical_lines.toNat total_bars margin_num margin_den
        shuffle1 shuffle2).horizontal_bars ∧
    (linesTouched vertical_lines.toNat
      (runPlacement vertical_lines.toNat total_bars margin_num margin_den
        shuffle1 shuffle2).horizontal_bars).all (fun b => b) = true := by
  simp only [generate_amidakuji_data] at hok
  split at hok
  · exact absurd hok (by simp)
  · split at hok
    · exact absurd hok (by simp)
    · split at hok
      · exact absurd hok (by simp)
      · split at hok
        · exact absurd hok (by simp)
        · split at hok
          · exact absurd hok (by simp)
          · split at hok
            · rename_i hall
              injection hok with h
              subst h
              exact ⟨rfl, rfl, hall⟩
            · exact absurd hok (by simp)

lemma generate_error_state
    (vertical_lines min_horizontal_bars max_horizontal_bars margin_num : Int)
    (margin_den total_bars : Nat)
    (shuffle1 shuffle2 : List (Nat × Nat) → List (Nat × Nat)) (ms : List Nat)
    (herr : generate_amidakuji_data vertical_lines min_horizontal_bars max_horizontal_bars
      margin_num margin_den total_bars shuffle1 shuffle2 =
      .error (.connectivityError ms)) :
    ms = ((List.range vertical_lines.toNat).filter fun i =>
        !((linesTouched vertical_lines.toNat
          (runPlacement vertical_lines.toNat total_bars margin_num margin_den
            shuffle1 shuffle2).horizontal_bars).getD i false)).map (fun i => i + 1) ∧
    (linesTouched vertical_lines.toNat
      (runPlacement vertical_lines.toNat total_bars margin_num margin_den
        shuffle1 shuffle2).horizontal_bars).all (fun b => b) = false := by
  simp only [generate_amidakuji_data] at herr
  split at herr
  · exact absurd herr (by simp)
  · split at herr
    · exact absurd herr (by simp)
    · split at herr
      · exact absurd herr (by simp)
      · split at herr
        · exact absurd herr (by simp)
        · split at herr
          · exact absurd herr (by simp)
          · split at herr
            · exact absurd herr (by simp)
            · rename_i hall
              injection herr with h
              injection h with h'
              exact ⟨h'.symm, Bool.not_eq_true _ ▸ hall⟩

/-! ### C2: grid height and margin band -/

/-- C2 counterexample: the code computes the grid height as
`total_bars * 2 if total_bars > 0 else 6`, not `max(totalRungs*2, 6)`.
The two disagree at `totalRungs = 1` (as drawn, e.g., from the valid input
`lineCount = 2, minRungs = maxRungs = 1`): the code's grid height is `2`
while the claimed formula gives `6`. -/
theorem gridHeight_ne_max_formula :
    gridHeight 1 = 2 ∧ max (1 * 2) 6 = 6 ∧ gridHeight 1 ≠ max (1 * 2) 6 := by
  decide

/-- C2 amended: the placement grid has height `totalRungs * 2` when
`totalRungs > 0` and `6` when `totalRungs = 0` (as computed by `gridHeight`),
and a margin band of `max(1, floor(height * marginRatio))` rows (as computed
by `marginLevels`) at both the top and the bottom of the grid is excluded
from rung placement: every rung of a successfully generated diagram lies at
least `marginLevels` rows below the top and strictly more than `marginLevels`
rows above row `height`. -/
theorem generate_margin_band
    (vertical_lines min_horizontal_bars max_horizontal_bars margin_num : Int)
    (margin_den total_bars : Nat)
    (shuffle1 shuffle2 : List (Nat × Nat) → List (Nat × Nat)) (data : AmidakujiData)
    (hs1 : ∀ l, (shuffle1 l).Perm l) (hs2 : ∀ l, (shuffle2 l).Perm l)
    (hok : generate_amidakuji_data vertical_lines min_horizontal_bars max_horizontal_bars
      margin_num margin_den total_bars shuffle1 shuffle2 = .ok data) :
    ∀ b ∈ data.horizontal_bars,
      marginLevels (gridHeight total_bars) margin_num margin_den ≤ b.y_level ∧
      b.y_level + marginLevels (gridHeight total_bars) margin_num margin_den <
        gridHeight total_bars := by
  obtain ⟨-, hbars, -⟩ :=
    generate_ok_state _ _ _ _ _ _ _ _ _ hok
  rw [hbars]
  intro b hb
  have hmem := runPlacement_bars_origin _ _ _ _ _ _ hs1 hs2 b hb
  rw [mem_cellRange] at hmem
  omega

/-- Witness for C2 (amended) at the successful run
`generate(2, 2, 2)` with drawn total `2` and identity shuffles, whose first
placed rung is at row 1. -/
theorem generate_margin_band_witness :
    marginLevels (gridHeight 2) 1 10 ≤ 1 ∧
    1 + marginLevels (gridHeight 2) 1 10 < gridHeight 2 :=
  generate_margin_band 2 2 2 1 10 2 id id ⟨2, 2, [⟨1, 0⟩, ⟨2, 0⟩]⟩
    (fun l => List.Perm.refl l) (fun l => List.Perm.refl l) (by decide)
    ⟨1, 0⟩ (by decide)

/-! ### C10: rows of returned rungs stay off the boundary -/

/-- C10: every rung of a successfully generated diagram has
`1 ≤ row ≤ height - 2` for the placement-grid height: the margin band is at
least one row on each side, so row `0` (and row `height - 1`) is never
occupied. -/
theorem generate_rows_interior
    (vertical_lines min_horizontal_bars max_horizontal_bars margin_num : Int)
    (margin_den total_bars : Nat)
    (shuffle1 shuffle2 : List (Nat × Nat) → List (Nat × Nat)) (data : AmidakujiData)
    (hs1 : ∀ l, (shuffle1 l).Perm l) (hs2 : ∀ l, (shuffle2 l).Perm l)
    (hok : generate_amidakuji_data vertical_lines min_horizontal_bars max_horizontal_bars
      margin_num margin_den total_bars shuffle1 shuffle2 = .ok data) :
    ∀ b ∈ data.horizontal_bars,
      1 ≤ b.y_level ∧ b.y_level ≤ gridHeight total_bars - 2 := by
  obtain ⟨-, hbars, -⟩ :=
    generate_ok_state _ _ _ _ _ _ _ _ _ hok
  rw [hbars]
  intro b hb
  have hmem := runPlacement_bars_origin _ _ _ _ _ _ hs1 hs2 b hb
  rw [mem_cellRange] at hmem
  have hm1 : 1 ≤ marginLevels (gridHeight total_bars) margin_num margin_den :=
    le_max_left 1 _
  omega

/-- Witness for C10 at the same successful `generate(2, 2, 2)` run. -/
theorem generate_rows_interior_witness :
    1 ≤ 1 ∧ 1 ≤ gridHeight 2 - 2 :=
  generate_rows_interior 2 2 2 1 10 2 id id ⟨2, 2, [⟨1, 0⟩, ⟨2, 0⟩]⟩
    (fun l => List.Perm.refl l) (fun l => List.Perm.refl l) (by decide)
    ⟨1, 0⟩ (by decide)

/-! ### C5: no two rungs share or touch a cell -/

/-- C5: in every successfully generated diagram, no two rungs occupy the same
(row, column) cell and no two rungs in the same row have equal or adjacent
left columns. -/
theorem generate_no_conflicts
    (vertical_lines min_horizontal_bars max_horizontal_bars margin_num : Int)
    (margin_den total_bars : Nat)
    (shuffle1 shuffle2 : List (Nat × Nat) → List (Nat × Nat)) (data : AmidakujiData)
    (hok : generate_amidakuji_data vertical_lines min_horizontal_bars max_horizontal_bars
      margin_num margin_den total_bars shuffle1 shuffle2 = .ok data) :
    data.horizontal_bars.Pairwise fun b1 b2 =>
      ¬(b1.y_level = b2.y_level ∧
        (b1.left_line_index = b2.left_line_index ∨
         b1.left_line_index + 1 = b2.left_line_index ∨
         b2.left_line_index + 1 = b1.left_line_index)) := by
  obtain ⟨-, hbars, -⟩ :=
    generate_ok_state _ _ _ _ _ _ _ _ _ hok
  rw [hbars]
  refine (runPlacement_placeInv _ _ _ _ _ _).2.imp ?_
  intro a b hab hcon
  obtain ⟨hy, hcols⟩ := hcon
  have h2 := hab hy
  rcases h2 with h2 | h2 <;> rcases hcols with h3 | h3 | h3 <;> omega

/-- Witness for C5 at the successful `generate(2, 2, 2)` run. -/
theorem generate_no_conflicts_witness :
    ([⟨1, 0⟩, ⟨2, 0⟩] : List Bar).Pairwise fun b1 b2 =>
      ¬(b1.y_level = b2.y_level ∧
        (b1.left_line_index = b2.left_line_index ∨
         b1.left_line_index + 1 = b2.left_line_index ∨
         b2.left_line_index + 1 = b1.left_line_index)) :=
  generate_no_conflicts 2 2 2 1 10 2 id id ⟨2, 2, [⟨1, 0⟩, ⟨2, 0⟩]⟩ (by decide)

/-! ### C3: rung-count bounds -/

/-- C3 counterexample: a fully valid run (`lineCount = 4`,
`minRungs = maxRungs = 6`, margin ratio `2/5`, drawn total `6`, both shuffles
acting as permutations — including on the exact list the second shuffle
receives) that SUCCEEDS with only `5` rungs, even though `6` pairwise
non-conflicting rungs fit in the placement grid (rows 4..7, columns 0..2), as
the exhibited placement shows.  So a successful result may have fewer than
`minRungs` rungs even when the grid can fit `minRungs` non-conflicting rungs:
the greedy pass does not backtrack. -/
theorem generate_below_min_despite_capacity :
    generate_amidakuji_data 4 6 6 2 5 6 shuffleC3a shuffleC3b =
      .ok ⟨4, 5, [⟨4, 1⟩, ⟨5, 0⟩, ⟨5, 2⟩, ⟨6, 1⟩, ⟨7, 1⟩]⟩ ∧
    (shuffleC3a (cellRange 4 12 3)).Perm (cellRange 4 12 3) ∧
    remainingC3 = (cellRange 4 12 3).filter (fun p =>
      decide (((p.1, (p.2 : Int)) : Nat × Int) ∉
        (coveragePass 6 4 (shuffleC3a (cellRange 4 12 3))
          ⟨[], [], List.replicate 4 false⟩).selected_positions)) ∧
    (shuffleC3b remainingC3).Perm remainingC3 ∧
    5 < 6 ∧
    ([⟨4, 0⟩, ⟨4, 2⟩, ⟨5, 0⟩, ⟨5, 2⟩, ⟨6, 0⟩, ⟨6, 2⟩] : List Bar).length = 6 ∧
    (([⟨4, 0⟩, ⟨4, 2⟩, ⟨5, 0⟩, ⟨5, 2⟩, ⟨6, 0⟩, ⟨6, 2⟩] : List Bar).all fun b =>
      decide ((b.y_level, b.left_line_index) ∈ cellRange 4 12 3)) = true ∧
    ([⟨4, 0⟩, ⟨4, 2⟩, ⟨5, 0⟩, ⟨5, 2⟩, ⟨6, 0⟩, ⟨6, 2⟩] : List Bar).Pairwise barsApart := by
  decide

/-- C3 amended: the number of rungs in a successfully generated diagram never
exceeds the drawn total, hence never exceeds `maxRungs`; the lower bound
`minRungs` is NOT guaranteed — the greedy placement can legitimately return
fewer even when the grid could fit `minRungs` non-conflicting rungs (see the
counterexample). -/
theorem generate_at_most_max
    (vertical_lines min_horizontal_bars max_horizontal_bars margin_num : Int)
    (margin_den total_bars : Nat)
    (shuffle1 shuffle2 : List (Nat × Nat) → List (Nat × Nat)) (data : AmidakujiData)
    (hmax : (total_bars : Int) ≤ max_horizontal_bars)
    (hok : generate_amidakuji_data vertical_lines min_horizontal_bars max_horizontal_bars
      margin_num margin_den total_bars shuffle1 shuffle2 = .ok data) :
    (data.horizontal_bars.length : Int) ≤ max_horizontal_bars := by
  obtain ⟨-, hbars, -⟩ :=
    generate_ok_state _ _ _ _ _ _ _ _ _ hok
  rw [hbars]
  have hlen := runPlacement_length vertical_lines.toNat total_bars margin_num margin_den
    shuffle1 shuffle2
  omega

/-- Witness for C3 (amended) at the successful `generate(2, 2, 2)` run. -/
theorem generate_at_most_max_witness :
    (([⟨1, 0⟩, ⟨2, 0⟩] : List Bar).length : Int) ≤ 2 :=
  generate_at_most_max 2 2 2 1 10 2 id id ⟨2, 2, [⟨1, 0⟩, ⟨2, 0⟩]⟩
    (by decide) (by decide)

/-! ### C8: connectivity check -/

lemma linesTouched_length (n : Nat) (bars : List Bar) :
    (linesTouched n bars).length = n := by
  unfold linesTouched
  have aux : ∀ (bs : List Bar) (acc : List Bool),
      (bs.foldl (fun acc bar =>
        let acc1 := acc.set bar.left_line_index true
        if bar.left_line_index + 1 < n then acc1.set (bar.left_line_index + 1) true
        else acc1) acc).length = acc.length := by
    intro bs
    induction bs with
    | nil => intro acc; rfl
    | cons b rest ih =>
      intro acc
      rw [List.foldl_cons, ih]
      dsimp only
      split <;> simp
  rw [aux, List.length_replicate]

lemma foldl_touch_getD (n i : Nat) (hi : i < n) :
    ∀ (bars : List Bar) (acc : List Bool), acc.length = n →
      (∀ b ∈ bars, b.left_line_index + 1 < n) →
      ((bars.foldl (fun acc bar =>
          let acc1 := acc.set bar.left_line_index true
          if bar.left_line_index + 1 < n then acc1.set (bar.left_line_index + 1) true
          else acc1) acc).getD i false = true ↔
        (acc.getD i false = true ∨ touchesLine bars i)) := by
  intro bars
  induction bars with
  | nil =>
    intro acc _ _
    simp [touchesLine]
  | cons b rest ih =>
    intro acc hlen hcols
    have hb1 : b.left_line_index + 1 < n := hcols b (List.mem_cons_self _ _)
    rw [List.foldl_cons]
    dsimp only at ih ⊢
    rw [if_pos hb1]
    rw [ih _ (by simp [hlen]) (fun b' hb' => hcols b' (List.mem_cons_of_mem _ hb'))]
    have hacc : ((acc.set b.left_line_index true).set (b.left_line_index + 1) true).getD i false = true ↔
        (i = b.left_line_index ∨ i = b.left_line_index + 1 ∨ acc.getD i false = true) := by
      by_cases h1 : i = b.left_line_index + 1
      · subst h1
        rw [List.getD_eq_getElem?_getD, List.getElem?_set_self (by simp [hlen]; omega)]
        simp
      · by_cases h2 : i = b.left_line_index
        · subst h2
          rw [List.getD_eq_getElem?_getD, List.getElem?_set_ne (fun hcon => h1 hcon.symm),
            List.getElem?_set_self (by omega)]
          simp
        · rw [List.getD_eq_getElem?_getD,
            List.getElem?_set_ne (fun hcon => h1 hcon.symm),
            List.getElem?_set_ne (fun hcon => h2 hcon.symm),
            ← List.getD_eq_getElem?_getD]
          simp [h1, h2]
    rw [hacc]
    have htl : touchesLine (b :: rest) i ↔
        ((i = b.left_line_index ∨ i = b.left_line_index + 1) ∨ touchesLine rest i) := by
      simp only [touchesLine, List.mem_cons]
      constructor
      · rintro ⟨b', hb' | hb', hor⟩
        · subst hb'
          exact Or.inl hor
        · exact Or.inr ⟨b', hb', hor⟩
      · rintro (hor | ⟨b', hb', hor⟩)
        · exact ⟨b, Or.inl rfl, hor⟩
        · exact ⟨b', Or.inr hb', hor⟩
    rw [htl]
    tauto

lemma linesTouched_getD_iff (n : Nat) (bars : List Bar)
    (hcols : ∀ b ∈ bars, b.left_line_index + 1 < n) (i : Nat) (hi : i < n) :
    ((linesTouched n bars).getD i false = true ↔ touchesLine bars i) := by
  unfold linesTouched
  rw [foldl_touch_getD n i hi bars _ (List.length_replicate _ _) hcols,
    List.getD_eq_getElem?_getD, List.getElem?_replicate_of_lt hi]
  simp

lemma all_getD_iff (l : List Bool) :
    l.all (fun b => b) = true ↔ ∀ i < l.length, l.getD i false = true := by
  rw [List.all_eq_true]
  constructor
  · intro h i hi
    rw [List.getD_eq_getElem?_getD, List.getElem?_eq_getElem hi]
    exact h _ (List.getElem_mem hi)
  · intro h x hx
    obtain ⟨i, hi, rfl⟩ := List.mem_iff_getElem.mp hx
    have := h i hi
    rw [List.getD_eq_getElem?_getD, List.getElem?_eq_getElem hi] at this
    exact this

/-- C8: after placement the generator checks that every vertical line is
touched by at least one rung.  On success, every line of the returned diagram
is touched; if some line is untouched, the run fails with a connectivity
error whose `missing_lines` list names (1-based, via `i + 1`) exactly the
untouched line indices — a diagram with an untouched line is never
returned. -/
theorem generate_coverage_guarantee
    (vertical_lines min_horizontal_bars max_horizontal_bars margin_num : Int)
    (margin_den total_bars : Nat)
    (shuffle1 shuffle2 : List (Nat × Nat) → List (Nat × Nat))
    (hv : 2 ≤ vertical_lines)
    (hs1 : ∀ l, (shuffle1 l).Perm l) (hs2 : ∀ l, (shuffle2 l).Perm l) :
    (∀ data, generate_amidakuji_data vertical_lines min_horizontal_bars
        max_horizontal_bars margin_num margin_den total_bars shuffle1 shuffle2 =
        .ok data →
      ∀ i < data.vertical_lines, touchesLine data.horizontal_bars i) ∧
    (∀ ms, generate_amidakuji_data vertical_lines min_horizontal_bars
        max_horizontal_bars margin_num margin_den total_bars shuffle1 shuffle2 =
        .error (.connectivityError ms) →
      ms ≠ [] ∧ ∀ i < vertical_lines.toNat,
        (¬touchesLine (runPlacement vertical_lines.toNat total_bars margin_num
          margin_den shuffle1 shuffle2).horizontal_bars i ↔ i + 1 ∈ ms)) := by
  have hcols : ∀ b ∈ (runPlacement vertical_lines.toNat total_bars margin_num
      margin_den shuffle1 shuffle2).horizontal_bars,
      b.left_line_index + 1 < vertical_lines.toNat := by
    intro b hb
    have hmem := runPlacement_bars_origin _ _ _ _ _ _ hs1 hs2 b hb
    rw [mem_cellRange] at hmem
    omega
  constructor
  · intro data hok
    obtain ⟨hn, hbars, hall⟩ :=
      generate_ok_state _ _ _ _ _ _ _ _ _ hok
    rw [hn, hbars]
    intro i hi
    refine (linesTouched_getD_iff _ _ hcols i hi).mp ?_
    exact (all_getD_iff _).mp hall i (by rw [linesTouched_length]; exact hi)
  · intro ms herr
    obtain ⟨hms, hallf⟩ :=
      generate_error_state _ _ _ _ _ _ _ _ _ herr
    constructor
    · intro hnil
      rw [hnil] at hms
      have hfil := (List.map_eq_nil_iff.mp hms.symm)
      obtain ⟨x, hx, hxf⟩ := List.all_eq_false.mp hallf
      obtain ⟨i, hilt, rfl⟩ := List.mem_iff_getElem.mp hx
      have hin : i ∈ (List.range vertical_lines.toNat).filter fun j =>
          !((linesTouched vertical_lines.toNat
            (runPlacement vertical_lines.toNat total_bars margin_num margin_den
              shuffle1 shuffle2).horizontal_bars).getD j false) := by
        rw [List.mem_filter, List.mem_range]
        refine ⟨by rw [linesTouched_length] at hilt; exact hilt, ?_⟩
        rw [List.getD_eq_getElem?_getD, List.getElem?_eq_getElem hilt]
        simp only [Option.getD_some, Bool.not_eq_true']
        simp only [Bool.not_eq_true] at hxf
        exact hxf
      rw [hfil] at hin
      exact absurd hin (List.not_mem_nil i)
    · intro i hi
      rw [hms]
      simp only [List.mem_map, List.mem_filter, List.mem_range]
      constructor
      · intro hnt
        refine ⟨i, ⟨hi, ?_⟩, rfl⟩
        rw [Bool.not_eq_true', ← Bool.not_eq_true]
        intro hcon
        exact hnt ((linesTouched_getD_iff _ _ hcols i hi).mp hcon)
      · rintro ⟨j, ⟨hj, hjf⟩, hji⟩
        have hji' : j = i := by omega
        subst hji'
        intro hcon
        rw [Bool.not_eq_true'] at hjf
        rw [← linesTouched_getD_iff _ _ hcols j hj] at hcon
        rw [hcon] at hjf
        cases hjf

/-- Witness for C8 at the successful `generate(2, 2, 2)` run: both lines of
the returned diagram are touched. -/
theorem generate_coverage_guarantee_witness :
    touchesLine [⟨1, 0⟩, ⟨2, 0⟩] 0 ∧ touchesLine [⟨1, 0⟩, ⟨2, 0⟩] 1 :=
  ⟨(generate_coverage_guarantee 2 2 2 1 10 2 id id (by decide)
      (fun l => List.Perm.refl l) (fun l => List.Perm.refl l)).1
      ⟨2, 2, [⟨1, 0⟩, ⟨2, 0⟩]⟩ (by decide) 0 (by decide),
    (generate_coverage_guarantee 2 2 2 1 10 2 id id (by decide)
      (fun l => List.Perm.refl l) (fun l => List.Perm.refl l)).1
      ⟨2, 2, [⟨1, 0⟩, ⟨2, 0⟩]⟩ (by decide) 1 (by decide)⟩

/-! ### C4: the simulated mapping is a permutation -/

lemma swapAdj_length (p : List Nat) (c : Nat) : (swapAdj p c).length = p.length := by
  unfold swapAdj
  split <;> simp

lemma swapAdj_perm (c : Nat) : ∀ (p : List Nat), (swapAdj p c).Perm p := by
  induction c with
  | zero =>
    intro p
    match p with
    | [] => exact List.Perm.refl _
    | [x] => exact List.Perm.refl _
    | x :: y :: t =>
      unfold swapAdj
      rw [if_pos (by simp)]
      simp only [List.getD_cons_succ, List.getD_cons_zero, List.set_cons_zero,
        List.set_cons_succ]
      exact List.Perm.swap x y t
  | succ c ih =>
    intro p
    match p with
    | [] => exact List.Perm.refl _
    | x :: t =>
      unfold swapAdj
      by_cases h : c + 1 < (x :: t).length - 1
      · rw [if_pos h]
        simp only [List.getD_cons_succ, List.set_cons_succ]
        refine List.Perm.cons x ?_
        have ht : c < t.length - 1 := by
          simp only [List.length_cons] at h
          omega
        have hrec := ih t
        unfold swapAdj at hrec
        rw [if_pos ht] at hrec
        exact hrec
      · rw [if_neg h]

lemma foldl_swapAdj_perm (bars : List Bar) :
    ∀ (init : List Nat),
      (bars.foldl (fun positions bar => swapAdj positions bar.left_line_index)
        init).Perm init := by
  induction bars with
  | nil => intro init; exact List.Perm.refl _
  | cons b rest ih =>
    intro init
    rw [List.foldl_cons]
    exact (ih _).trans (swapAdj_perm _ _)

/-- C4: for every diagram whose rungs all have `leftColumn` in
`[0, lineCount - 2]`, `_simulate_amidakuji` returns a permutation of
`0..lineCount-1`: the output has length `lineCount` and is a rearrangement of
`range lineCount` (hence bijective on starting indices). -/
theorem simulate_returns_permutation (d : AmidakujiData)
    (hcols : ∀ b ∈ d.horizontal_bars, b.left_line_index + 2 ≤ d.vertical_lines) :
    (_simulate_amidakuji d).length = d.vertical_lines ∧
    (_simulate_amidakuji d).Perm (List.range d.vertical_lines) := by
  have hperm : (_simulate_amidakuji d).Perm (List.range d.vertical_lines) := by
    unfold _simulate_amidakuji
    exact foldl_swapAdj_perm _ _
  exact ⟨by rw [hperm.length_eq, List.length_range], hperm⟩

/-- Witness for C4 at the spec's example diagram: one rung at row 0, column
0, with three lines. -/
theorem simulate_returns_permutation_witness :
    (_simulate_amidakuji ⟨3, 1, [⟨0, 0⟩]⟩).length = 3 ∧
    (_simulate_amidakuji ⟨3, 1, [⟨0, 0⟩]⟩).Perm (List.range 3) :=
  simulate_returns_permutation ⟨3, 1, [⟨0, 0⟩]⟩ (by decide)

/-! ### C6: order invariance of the rung list -/

lemma swapAdj_getElem? (p : List Nat) (c j : Nat) :
    (swapAdj p c)[j]? = if c + 1 < p.length then
      (if j = c then p[c + 1]? else if j = c + 1 then p[c]? else p[j]?)
    else p[j]? := by
  unfold swapAdj
  split
  · rename_i h
    rw [if_pos (by omega)]
    by_cases h1 : j = c
    · subst h1
      rw [if_pos rfl]
      rw [List.getElem?_set_ne (by omega), List.getElem?_set_self (by omega)]
      rw [List.getD_eq_getElem?_getD, List.getElem?_eq_getElem (by omega : j + 1 < p.length)]
      simp
    · by_cases h2 : j = c + 1
      · subst h2
        rw [if_neg h1, if_pos rfl]
        rw [List.getElem?_set_self (by simp only [List.length_set]; omega)]
        rw [List.getD_eq_getElem?_getD, List.getElem?_eq_getElem (by omega : c < p.length)]
        simp
      · rw [if_neg h1, if_neg h2]
        rw [List.getElem?_set_ne (fun hcon => h2 hcon.symm),
          List.getElem?_set_ne (fun hcon => h1 hcon.symm)]
  · rename_i h
    rw [if_neg (by omega)]

lemma swapAdj_comm (p : List Nat) (c1 c2 : Nat)
    (hap : c1 + 2 ≤ c2 ∨ c2 + 2 ≤ c1) :
    swapAdj (swapAdj p c1) c2 = swapAdj (swapAdj p c2) c1 := by
  apply List.ext_getElem?
  intro j
  simp only [swapAdj_getElem?, swapAdj_length]
  split_ifs <;> first | rfl | omega

lemma sorted_takeWhile_filter (m : Nat) :
    ∀ (l : List Bar), l.Pairwise (fun x y => x.y_level ≤ y.y_level) →
      (∀ x ∈ l, m ≤ x.y_level) →
      l.takeWhile (fun x => decide (x.y_level = m)) =
        l.filter (fun x => decide (x.y_level = m)) ∧
      l.dropWhile (fun x => decide (x.y_level = m)) =
        l.filter (fun x => !decide (x.y_level = m)) := by
  intro l
  induction l with
  | nil => intro _ _; constructor <;> rfl
  | cons x t ih =>
    intro hs hge
    have hpc := List.pairwise_cons.mp hs
    by_cases hx : x.y_level = m
    · obtain ⟨ht, hd⟩ := ih hpc.2 (fun y hy => hge y (List.mem_cons_of_mem _ hy))
      constructor
      · rw [List.takeWhile_cons_of_pos (by simpa using hx),
          List.filter_cons_of_pos (by simpa using hx), ht]
      · rw [List.dropWhile_cons_of_pos (by simpa using hx),
          List.filter_cons_of_neg (by simpa using hx), hd]
    · have hall : ∀ y ∈ x :: t, ¬(y.y_level = m) := by
        intro y hy
        rcases List.mem_cons.mp hy with rfl | hy'
        · exact hx
        · have h1 := hpc.1 y hy'
          have h2 := hge x (List.mem_cons_self _ _)
          omega
      constructor
      · rw [List.takeWhile_cons_of_neg (by simpa using hx)]
        symm
        rw [List.filter_eq_nil_iff]
        intro a ha
        simp only [decide_eq_true_eq]
        exact hall a ha
      · rw [List.dropWhile_cons_of_neg (by simpa using hx)]
        symm
        rw [List.filter_eq_self]
        intro a ha
        simp only [Bool.not_eq_true', decide_eq_false_iff_not]
        exact hall a ha

lemma foldl_swap_sorted_perm :
    ∀ (N : Nat) (l1 l2 : List Bar) (init : List Nat),
      l1.length ≤ N →
      l1.Perm l2 →
      l1.Pairwise (fun x y => x.y_level ≤ y.y_level) →
      l2.Pairwise (fun x y => x.y_level ≤ y.y_level) →
      (∀ x ∈ l1, ∀ y ∈ l1, x.y_level = y.y_level →
        x = y ∨ x.left_line_index + 2 ≤ y.left_line_index ∨
          y.left_line_index + 2 ≤ x.left_line_index) →
      l1.foldl (fun positions bar => swapAdj positions bar.left_line_index) init =
      l2.foldl (fun positions bar => swapAdj positions bar.left_line_index) init := by
  intro N
  induction N with
  | zero =>
    intro l1 l2 init hlen hp _ _ _
    have h1 : l1 = [] := List.eq_nil_of_length_eq_zero (Nat.le_zero.mp hlen)
    subst h1
    have h2 : l2 = [] := List.Perm.eq_nil hp.symm
    subst h2
    rfl
  | succ N ih =>
    intro l1 l2 init hlen hp hs1 hs2 hcomm
    cases l1 with
    | nil =>
      have h2 : l2 = [] := List.Perm.eq_nil hp.symm
      subst h2
      rfl
    | cons a t1 =>
      cases l2 with
      | nil => exact absurd (List.Perm.eq_nil hp) (by simp)
      | cons b t2 =>
        have hmema : a ∈ b :: t2 := hp.mem_iff.mp (List.mem_cons_self a t1)
        have hmemb : b ∈ a :: t1 := hp.mem_iff.mpr (List.mem_cons_self b t2)
        have hab : b.y_level = a.y_level := by
          rcases List.mem_cons.mp hmema with h | h
          · rw [h]
          · rcases List.mem_cons.mp hmemb with h' | h'
            · rw [h']
            · have h1 := (List.pairwise_cons.mp hs1).1 b h'
              have h2 := (List.pairwise_cons.mp hs2).1 a h
              omega
        have hge1 : ∀ x ∈ a :: t1, a.y_level ≤ x.y_level := by
          intro x hx
          rcases List.mem_cons.mp hx with rfl | hx'
          · exact le_refl _
          · exact (List.pairwise_cons.mp hs1).1 x hx'
        have hge2 : ∀ x ∈ b :: t2, a.y_level ≤ x.y_level := by
          intro x hx
          rcases List.mem_cons.mp hx with rfl | hx'
          · exact le_of_eq hab.symm
          · exact le_trans (le_of_eq hab.symm) ((List.pairwise_cons.mp hs2).1 x hx')
        obtain ⟨ht1, hd1⟩ := sorted_takeWhile_filter a.y_level (a :: t1) hs1 hge1
        obtain ⟨ht2, hd2⟩ := sorted_takeWhile_filter a.y_level (b :: t2) hs2 hge2
        have hsplit1 : (a :: t1).foldl
            (fun positions bar => swapAdj positions bar.left_line_index) init =
            ((a :: t1).dropWhile (fun x => decide (x.y_level = a.y_level))).foldl
              (fun positions bar => swapAdj positions bar.left_line_index)
              (((a :: t1).takeWhile (fun x => decide (x.y_level = a.y_level))).foldl
                (fun positions bar => swapAdj positions bar.left_line_index) init) := by
          conv_lhs => rw [← List.takeWhile_append_dropWhile
            (p := fun x => decide (x.y_level = a.y_level)) (l := a :: t1)]
          rw [List.foldl_append]
        have hsplit2 : (b :: t2).foldl
            (fun positions bar => swapAdj positions bar.left_line_index) init =
            ((b :: t2).dropWhile (fun x => decide (x.y_level = a.y_level))).foldl
              (fun positions bar => swapAdj positions bar.left_line_index)
              (((b :: t2).takeWhile (fun x => decide (x.y_level = a.y_level))).foldl
                (fun positions bar => swapAdj positions bar.left_line_index) init) := by
          conv_lhs => rw [← List.takeWhile_append_dropWhile
            (p := fun x => decide (x.y_level = a.y_level)) (l := b :: t2)]
          rw [List.foldl_append]
        have hgperm : ((a :: t1).takeWhile (fun x => decide (x.y_level = a.y_level))).Perm
            ((b :: t2).takeWhile (fun x => decide (x.y_level = a.y_level))) := by
          rw [ht1, ht2]
          exact hp.filter _
        have hgfold : (((a :: t1).takeWhile (fun x => decide (x.y_level = a.y_level))).foldl
              (fun positions bar => swapAdj positions bar.left_line_index) init) =
            (((b :: t2).takeWhile (fun x => decide (x.y_level = a.y_level))).foldl
              (fun positions bar => swapAdj positions bar.left_line_index) init) := by
          refine hgperm.foldl_eq' ?_ init
          intro x hx y hy z
          have hxl : x ∈ a :: t1 := (List.takeWhile_sublist _).mem hx
          have hyl : y ∈ a :: t1 := (List.takeWhile_sublist _).mem hy
          have hxm : x.y_level = a.y_level := by
            have := List.mem_takeWhile_imp hx
            simpa using this
          have hym : y.y_level = a.y_level := by
            have := List.mem_takeWhile_imp hy
            simpa using this
          rcases hcomm x hxl y hyl (hxm.trans hym.symm) with rfl | hap
          · rfl
          · exact swapAdj_comm z _ _ hap
        have hrperm : ((a :: t1).dropWhile (fun x => decide (x.y_level = a.y_level))).Perm
            ((b :: t2).dropWhile (fun x => decide (x.y_level = a.y_level))) := by
          rw [hd1, hd2]
          exact hp.filter _
        have htconsa : (a :: t1).takeWhile (fun x => decide (x.y_level = a.y_level)) =
            a :: t1.takeWhile (fun x => decide (x.y_level = a.y_level)) := by
          rw [List.takeWhile_cons]
          simp
        have hlend : ((a :: t1).dropWhile
            (fun x => decide (x.y_level = a.y_level))).length ≤ N := by
          have hsum := congrArg List.length (List.takeWhile_append_dropWhile
            (p := fun x => decide (x.y_level = a.y_level)) (l := a :: t1))
          rw [List.length_append] at hsum
          rw [htconsa] at hsum
          simp only [List.length_cons] at hsum hlen
          omega
        rw [hsplit1, hsplit2, hgfold]
        refine ih _ _ _ hlend hrperm ?_ ?_ ?_
        · exact hs1.sublist (List.dropWhile_sublist _)
        · exact hs2.sublist (List.dropWhile_sublist _)
        · intro x hx y hy hxy
          exact hcomm x ((List.dropWhile_sublist _).mem hx)
            y ((List.dropWhile_sublist _).mem hy) hxy

/-- C6: on any diagram whose rungs satisfy the no-adjacency invariant (no two
rungs share a row with equal or adjacent left columns), the simulated mapping
does not depend on the order of the rungs list: any two rung lists that are
permutations of each other give equal results (whatever the stored totals). -/
theorem simulate_order_invariant (n total1 total2 : Nat) (bars1 bars2 : List Bar)
    (hperm : bars1.Perm bars2)
    (hadj : bars1.Pairwise fun x y => x.y_level = y.y_level →
      x.left_line_index + 2 ≤ y.left_line_index ∨
      y.left_line_index + 2 ≤ x.left_line_index) :
    _simulate_amidakuji ⟨n, total1, bars1⟩ = _simulate_amidakuji ⟨n, total2, bars2⟩ := by
  unfold _simulate_amidakuji
  dsimp only
  have htrans : ∀ (a b c : Bar), decide (a.y_level ≤ b.y_level) = true →
      decide (b.y_level ≤ c.y_level) = true →
      decide (a.y_level ≤ c.y_level) = true := by
    intro a b c h1 h2
    simp only [decide_eq_true_eq] at h1 h2 ⊢
    omega
  have htotal : ∀ (a b : Bar),
      (decide (a.y_level ≤ b.y_level) || decide (b.y_level ≤ a.y_level)) = true := by
    intro a b
    simp only [Bool.or_eq_true, decide_eq_true_eq]
    omega
  have hs1 : (bars1.mergeSort fun a b => decide (a.y_level ≤ b.y_level)).Pairwise
      (fun x y : Bar => x.y_level ≤ y.y_level) := by
    refine (List.sorted_mergeSort htrans htotal bars1).imp ?_
    intro a b hab
    simpa using hab
  have hs2 : (bars2.mergeSort fun a b => decide (a.y_level ≤ b.y_level)).Pairwise
      (fun x y : Bar => x.y_level ≤ y.y_level) := by
    refine (List.sorted_mergeSort htrans htotal bars2).imp ?_
    intro a b hab
    simpa using hab
  have hp' : (bars1.mergeSort fun a b => decide (a.y_level ≤ b.y_level)).Perm
      (bars2.mergeSort fun a b => decide (a.y_level ≤ b.y_level)) :=
    ((List.mergeSort_perm bars1 _).trans hperm).trans (List.mergeSort_perm bars2 _).symm
  have hcomm : ∀ x ∈ bars1.mergeSort fun a b => decide (a.y_level ≤ b.y_level),
      ∀ y ∈ bars1.mergeSort fun a b => decide (a.y_level ≤ b.y_level),
      x.y_level = y.y_level →
      x = y ∨ x.left_line_index + 2 ≤ y.left_line_index ∨
        y.left_line_index + 2 ≤ x.left_line_index := by
    intro x hx y hy hxy
    by_cases heq : x = y
    · exact Or.inl heq
    · right
      have hx' : x ∈ bars1 := List.mem_mergeSort.mp hx
      have hy' : y ∈ bars1 := List.mem_mergeSort.mp hy
      have hsym : Symmetric (fun x y : Bar => x.y_level = y.y_level →
          x.left_line_index + 2 ≤ y.left_line_index ∨
          y.left_line_index + 2 ≤ x.left_line_index) := by
        intro u v huv hvu
        rcases huv hvu.symm with h | h
        · exact Or.inr h
        · exact Or.inl h
      exact hadj.forall hsym hx' hy' heq hxy
  exact foldl_swap_sorted_perm
    (bars1.mergeSort fun a b => decide (a.y_level ≤ b.y_level)).length _ _ _
    le_rfl hp' hs1 hs2 hcomm

/-- Witness for C6: two same-row, non-adjacent rungs listed in both orders. -/
theorem simulate_order_invariant_witness :
    _simulate_amidakuji ⟨4, 2, [⟨0, 0⟩, ⟨0, 2⟩]⟩ =
      _simulate_amidakuji ⟨4, 2, [⟨0, 2⟩, ⟨0, 0⟩]⟩ :=
  simulate_order_invariant 4 2 2 [⟨0, 0⟩, ⟨0, 2⟩] [⟨0, 2⟩, ⟨0, 0⟩]
    (List.Perm.swap (⟨0, 2⟩ : Bar) (⟨0, 0⟩ : Bar) []) (by decide)

end Amidakuji
